import Mathlib

/-!
Verification development for the linkinator crawl engine.

The embedding follows the two source files:
* `src/index.ts` (the file given without a name): `CheckOptions`, `LinkState`,
  `LinkResult`, `LinkChecker.check` / `LinkChecker.crawl`, `isHtml`;
* `src/links.ts`: `getLinks`, `parseAttr`, `parseLink`.

External collaborators (the HTTP transport `gaxios`, the HTML parser
`cheerio`, Node's WHATWG `URL` object and the `RegExp` engine) are consumed
by the source as black boxes, so the embedding takes them as function
parameters: a transport is a map from request index to an optional response
(`none` models a thrown transport error), URL parsing/resolution are maps
into `Option Url`, and a regular-expression test is a binary boolean
function on pattern and subject strings.

Stateful crawl code is modelled as a small-step scheduler over an explicit
`EngineState`.  The only suspension points in `LinkChecker.crawl` are the
awaited HTTP requests, so one task is split into two atomic phases exactly
as JavaScript's run-to-completion semantics dictates: `stepStart` (dedup
gate, skip gate, and issuing the fetch — lines 120-177 of the engine file)
and `stepFinish` (result emission and child enqueueing — lines 178-215).
A schedule chooses nondeterministically which queued task to start or which
in-flight task to finish at each step, which models arbitrary completion
order of concurrent fetches.
-/

/-- `LinkState` enum from the engine file (lines 22-26). -/
inductive LinkState where
  | OK
  | BROKEN
  | SKIPPED
  deriving DecidableEq, Repr

/-- `LinkResult` record (engine file lines 28-33); `status? : number` becomes
`Option Nat`, `parent? : string` becomes `Option String`. -/
structure LinkResult where
  url : String
  status : Option Nat
  state : LinkState
  parent : Option String
  deriving DecidableEq, Repr

/-- `CheckOptions` (engine file lines 14-20); every optional field is an
`Option`. -/
structure CheckOptions where
  concurrency : Option Nat
  port : Option Nat
  path : String
  recurse : Option Bool
  linksToSkip : Option (List String)
  deriving DecidableEq, Repr

/-- Black-box view of a parsed WHATWG `URL` object: the projections the
source reads (`href` after clearing `hash`, and `host`). -/
structure Url where
  href : String
  host : String
  deriving DecidableEq, Repr

/-- HTTP request methods used by the engine. -/
inductive Method where
  | GET
  | HEAD
  deriving DecidableEq, Repr

/-- Black-box view of a `gaxios` response: `status`, the `content-type`
header (absent modelled as `none`), and `data` as text. -/
structure Resp where
  status : Nat
  contentType : Option String
  data : String
  deriving DecidableEq, Repr

/-- JavaScript `String.prototype.startsWith` (Lean's own `String.startsWith`
is not kernel-reducible, so the embedding uses the equivalent character-list
test). -/
def startsWithStr (s p : String) : Bool := p.toList.isPrefixOf s.toList

/-- Splitting on a one-character separator, as JavaScript
`String.prototype.split` does it: `""` yields `[""]`, and a trailing
separator yields a trailing empty segment. -/
def splitOnCharAux (sep : Char) : List Char → List Char → List String
  | accRev, [] => [String.mk accRev.reverse]
  | accRev, c :: rest =>
    if c = sep then String.mk accRev.reverse :: splitOnCharAux sep [] rest
    else splitOnCharAux sep (c :: accRev) rest

/-- JavaScript `value.split(sep)` for a one-character separator. -/
def splitOnChar (s : String) (sep : Char) : List String :=
  splitOnCharAux sep [] s.toList

/-- JavaScript `String.prototype.trim` (whitespace stripped from both ends;
ASCII whitespace suffices for the inputs considered here). -/
def trimStr (s : String) : String :=
  String.mk (((s.toList.dropWhile Char.isWhitespace).reverse.dropWhile Char.isWhitespace).reverse)

/-- The leading chunk of a string up to its first whitespace character:
JavaScript `str.split(/\s+/)[0]` for a string with no leading whitespace. -/
def takeUntilWs (s : String) : String :=
  String.mk (s.toList.takeWhile (fun c => !c.isWhitespace))

/-- Concatenation of parts with a separator between them (JavaScript
`parts.join(sep)`). -/
def joinWith (sep : String) : List String → String
  | [] => ""
  | [s] => s
  | s :: rest => s ++ sep ++ joinWith sep rest

/-- Substring test on strings (the effect of JavaScript
`contentType.match(/text\/html/g)` is a substring search). -/
def containsSub (hay needle : String) : Bool :=
  (List.range (hay.toList.length + 1)).any
    (fun i => needle.toList.isPrefixOf (hay.toList.drop i))

/-- `isHtml` (engine file lines 234-240): the `content-type` header, defaulted
to the empty string, is searched for `text/html` or `application/xhtml+xml`. -/
def isHtml (r : Resp) : Bool :=
  let ct := r.contentType.getD ""
  containsSub ct "text/html" || containsSub ct "application/xhtml+xml"

/-- Status classification (engine file lines 146-147 and 170-172): `state`
starts `BROKEN` and becomes `OK` exactly when `200 <= status < 300`. -/
def classify (s : Nat) : LinkState :=
  if 200 ≤ s ∧ s < 300 then LinkState.OK else LinkState.BROKEN

/-- Method of the first request (engine file line 152): `GET` when the task
may crawl, else `HEAD`. -/
def firstMethod (crawl : Bool) : Method :=
  if crawl then Method.GET else Method.HEAD

/-- Everything the fetch section of `crawl` (engine file lines 145-177)
determines: the requests issued in order, and the final
`status`/`state`/`data`/`shouldRecurse` locals. -/
structure FetchOutcome where
  reqs : List Method
  status : Nat
  state : LinkState
  data : String
  shouldRecurse : Bool
  deriving DecidableEq, Repr

/-- The fetch section of `crawl` (engine file lines 145-177).  `tr n` is the
transport's answer to the `n`-th request for this URL; `none` models a
thrown transport error, caught at line 175 leaving the defaults
`status = 0`, `state = BROKEN`, `data = ''`, `shouldRecurse = false`.
A first response of `405` triggers one `GET` retry (lines 158-166); the
final response feeds `status`, `state`, `data` and `shouldRecurse`
(lines 168-174). -/
def fetchPhase (crawl : Bool) (tr : Nat → Option Resp) : FetchOutcome :=
  let m := firstMethod crawl
  match tr 0 with
  | none => ⟨[m], 0, LinkState.BROKEN, "", false⟩
  | some r1 =>
    if r1.status = 405 then
      match tr 1 with
      | none => ⟨[m, Method.GET], 0, LinkState.BROKEN, "", false⟩
      | some r2 => ⟨[m, Method.GET], r2.status, classify r2.status, r2.data, isHtml r2⟩
    else ⟨[m], r1.status, classify r1.status, r1.data, isHtml r1⟩

/-- The response whose fields the fetch section ends up reading: the first
response unless it was a `405`, in which case the retry's response. -/
def effectiveResp (tr : Nat → Option Resp) : Option Resp :=
  match tr 0 with
  | none => none
  | some r1 => if r1.status = 405 then tr 1 else some r1

/-- The three skip patterns pushed by `check` (engine file line 61). -/
def builtinSkips : List String := ["^mailto:", "^irc:", "^data:"]

/-- The option mutation performed by `check` before crawling (engine file
lines 59-68): `linksToSkip` is defaulted to `[]` and the built-in patterns
are appended to it (a JavaScript `push` mutates the caller's array); when
`path` does not start with `http`, a local server port is chosen —
`options.port || 5000 + random`, where a `port` of `0` is falsy and also
falls back to the random value — and `path` is rewritten to
`http://localhost:<port>`.  `randomPort` stands for the random draw. -/
def checkSetupOptions (o : CheckOptions) (randomPort : Nat) : CheckOptions :=
  let o1 : CheckOptions := { o with linksToSkip := some (o.linksToSkip.getD [] ++ builtinSkips) }
  if startsWithStr o1.path "http" then o1
  else
    let port := match o1.port with
      | some p => if p = 0 then randomPort else p
      | none => randomPort
    { o1 with path := "http://localhost:" ++ toString port }

/-- The per-candidate recursion decision in `crawl` (engine file lines
191-201): `crawl = recurse && url.startsWith(path)`; when that is true the
code additionally parses both URLs and demands equal hosts, but the
surrounding `try { ... } catch {}` swallows a parse failure, leaving `crawl`
at the value the prefix check gave it.  `p1` stands for one-argument
`new URL(s)`, with `none` modelling a thrown `TypeError`. -/
def recurseDecision (p1 : String → Option Url) (rec : Bool) (path url : String) : Bool :=
  let c := rec && startsWithStr url path
  if c then
    match p1 url, p1 path with
    | some pu, some pp => c && (pu.host == pp.host)
    | _, _ => c
  else c

/-- `ParsedUrl` from `links.ts` (lines 37-41): the raw token, the resolved
URL when resolution succeeded, and whether an error was caught. -/
structure ParsedUrl where
  link : String
  url : Option Url
  error : Bool
  deriving DecidableEq, Repr

/-- `parseLink` from `links.ts` (lines 125-133): resolve `link` against
`baseUrl` (`resolve` stands for two-argument `new URL(link, base)` followed
by clearing `hash`; `none` models a throw); a failure is captured in the
returned record, not rethrown. -/
def parseLink (resolve : String → String → Option Url) (link baseUrl : String) : ParsedUrl :=
  match resolve link baseUrl with
  | some u => ⟨link, some u, false⟩
  | none => ⟨link, none, true⟩

/-- The sanitising tail of `getLinks` in `links.ts` (lines 68-71): the raw
attribute tokens collected by the cheerio scan (lines 48-56, a black box
here, hence the `tokens` parameter) are filtered for truthiness and each is
passed through `parseLink` against the effective base URL (computed in
lines 58-66, passed in here as `realBaseUrl`).  Note that no candidate is
removed on account of a parse error: failed candidates stay in the returned
list with `error` set. -/
def getLinks (resolve : String → String → Option Url) (tokens : List String)
    (realBaseUrl : String) : List ParsedUrl :=
  (tokens.filter (fun l => l ≠ "")).map (fun l => parseLink resolve l realBaseUrl)

/-- A task handed to `queue.add` by the recursion loop of `crawl` (engine
file lines 203-213), carrying the candidate it was created from. -/
structure QueuedTask where
  cand : ParsedUrl
  parent : Option String
  crawl : Bool
  deriving DecidableEq, Repr

/-- The recursion loop of `crawl` (engine file lines 190-214): one task is
queued for **every** element of the list `getLinks` returned — the loop
body never inspects the candidate's `error` field (indeed its `getLinks`
call passes two arguments against the three-parameter `ParsedUrl`-returning
signature in `links.ts`, so no filtering step exists between the two files).
`dec` is the per-candidate recursion decision. -/
def crawlQueueCandidates (cands : List ParsedUrl) (pageUrl : String)
    (dec : ParsedUrl → Bool) : List QueuedTask :=
  cands.map (fun u => ⟨u, some pageUrl, dec u⟩)

/-- The single-quote character (code point 39). -/
def squote : Char := Char.ofNat 39

/-- The double-quote character (code point 34). -/
def dquote : Char := Char.ofNat 34

/-- A quote character as allowed by the `('|"|)` groups of the
`urlValueRegexp` in `links.ts` (line 107). -/
def isQuoteChar (c : Char) : Bool := c = squote || c = dquote

/-- The lazy group `([^)]+?)` of `urlValueRegexp` followed by `('|"|)?\)`:
`accRev` holds the (nonempty, reversed) inner characters matched so far;
being lazy, the group stops growing at the first position where an optional
quote followed by a closing parenthesis matches.  A closing parenthesis can
never be absorbed into the group, and running out of input fails. -/
def lazyScan : List Char → List Char → Option (List Char)
  | _, [] => none
  | accRev, c :: rest =>
    if isQuoteChar c then
      match rest with
      | c2 :: _ => if c2 = ')' then some accRev.reverse else lazyScan (c :: accRev) rest
      | [] => none
    else if c = ')' then some accRev.reverse
    else lazyScan (c :: accRev) rest

/-- Start the lazy group: its first character must exist and must not be a
closing parenthesis. -/
def lazyStart : List Char → Option (List Char)
  | [] => none
  | c :: rest => if c = ')' then none else lazyScan [c] rest

/-- Matching of `('|"|)?([^)]+?)('|"|)?\)` against the characters following
`url(`: the leading optional quote group is greedy, so a leading quote is
consumed first and given back (backtracked) only if the rest of the pattern
cannot match without it. -/
def tailMatch (r : List Char) : Option (List Char) :=
  match r with
  | [] => none
  | c :: rest =>
    if isQuoteChar c then
      match lazyStart rest with
      | some v => some v
      | none => lazyStart r
    else lazyStart r

/-- The whole `urlValueRegexp` (`links.ts` line 107,
`^.*url\(('|"|)?([^)]+?)('|"|)?\).*`): the greedy leading `.*` makes the
engine try `url(` occurrences from the rightmost one leftwards, and the
first occurrence whose tail matches wins; the captured group 2 is returned.
(`.` is treated as matching any character here; the embedding considers
newline-free attribute values.) -/
def scanUrl : List Char → Option (List Char)
  | [] => none
  | c :: rest =>
    match scanUrl rest with
    | some v => some v
    | none =>
      if ("url(".toList).isPrefixOf (c :: rest) then tailMatch ((c :: rest).drop 4)
      else none

/-- `value.match(urlValueRegexp)` as a boolean. -/
def urlValueMatch (v : String) : Bool := (scanUrl v.toList).isSome

/-- `value.replace(urlValueRegexp, '$2')`: when the pattern matches it spans
the whole (newline-free) string, so the replacement is exactly the captured
inner URL; with no match, `replace` returns the string unchanged. -/
def urlValueReplace (v : String) : String :=
  match scanUrl v.toList with
  | some l => String.mk l
  | none => v

/-- One declaration of a `style` attribute as processed by the `map` inside
`parseAttr` (`links.ts` lines 101-115).  JavaScript array destructuring
`[attr, value] = rules.split(':')` binds `attr` to the part before the
first colon and `value` to the part strictly between the first and second
colons; with no colon present, `value` is `undefined` and the subsequent
`value.match(...)` — reached only when the trimmed property name is
`background` or `background-image`, thanks to `&&` short-circuiting —
throws a `TypeError`, modelled by `none`. -/
def styleDeclLinks (rules : String) : Option String :=
  if rules = "" then some ""
  else
    match splitOnChar rules ':' with
    | [] => some ""
    | [a] =>
      if trimStr a = "background" || trimStr a = "background-image" then none else some ""
    | a :: v :: _ =>
      some (if (trimStr a = "background" || trimStr a = "background-image") && urlValueMatch v
        then urlValueReplace v else "")

/-- `parseAttr` from `links.ts` (lines 95-123).  A `style` value is split on
`;`, empty segments are dropped, and each declaration goes through
`styleDeclLinks` (`none`, a thrown `TypeError`, aborts the whole call).  A
`srcset` value is split on `,`, and each candidate is trimmed and truncated
at its first whitespace character.  Any other attribute yields its value
verbatim. -/
def parseAttr (name value : String) : Option (List String) :=
  if name = "style" then
    ((splitOnChar value ';').filter (fun v => v ≠ "")).mapM styleDeclLinks
  else if name = "srcset" then
    some ((splitOnChar value ',').map (fun pair => takeUntilWs (trimStr pair)))
  else some [value]

/-- Modelled from the spec (§4.2): per-declaration `style` parsing as the
spec words it — the declaration is split on the **first** `:` only, so its
value is everything after that colon; a `background`/`background-image`
declaration whose value matches the `url(...)` pattern yields the inner
URL, and every other declaration yields nothing. -/
def specStyleDeclFirstColon (rules : String) : String :=
  match splitOnChar rules ':' with
  | [] => ""
  | [_] => ""
  | a :: rest =>
    let v := joinWith ":" rest
    if (trimStr a = "background" || trimStr a = "background-image") && urlValueMatch v
      then urlValueReplace v else ""

/-- Modelled from the spec (§4.2), style parsing at the attribute level with
the spec's split-on-first-colon semantics. -/
def specStyleTokens (value : String) : List String :=
  ((splitOnChar value ';').filter (fun v => v ≠ "")).map specStyleDeclFirstColon

/-- The amended per-declaration semantics that the code actually has: the
declaration's value is the segment strictly between the first and second
colons (`(rules.splitOn ":")[1]?`), and a `background`/`background-image`
declaration with no colon at all crashes (`none`). -/
def specStyleDeclSndSegment (rules : String) : Option String :=
  let parts := splitOnChar rules ':'
  let a := parts.headD ""
  match parts[1]? with
  | none => if trimStr a = "background" || trimStr a = "background-image" then none else some ""
  | some v =>
    some (if (trimStr a = "background" || trimStr a = "background-image") && urlValueMatch v
      then urlValueReplace v else "")

/-- The amended attribute-level `style` semantics. -/
def specStyleTokensSnd (value : String) : Option (List String) :=
  ((splitOnChar value ';').filter (fun v => v ≠ "")).mapM specStyleDeclSndSegment

/-- The fixed environment of one crawl run: the effective skip patterns and
recursion parameters from the processed `CheckOptions`, plus the external
collaborators — `rtest p u` is `new RegExp(p).test(u)`, `tr u n` the
transport's answer to the `n`-th request for `u`, `extract data url` the
candidate URLs produced by `getLinks(data, url)` (cheerio being a black
box), and `p1` one-argument `new URL`. -/
structure Cfg where
  patterns : List String
  rtest : String → String → Bool
  tr : String → Nat → Option Resp
  extract : String → String → List String
  p1 : String → Option Url
  recurse : Bool
  path : String

/-- A queued unit of work, as seeded by `check` (engine file lines 75-84)
and by the recursion loop (lines 203-213). -/
structure CrawlTask where
  url : String
  parent : Option String
  crawl : Bool
  deriving DecidableEq, Repr

/-- The mutable state one crawl run shares across its concurrent tasks:
the work queue, the tasks past the gates awaiting their fetch, the visited
cache, the result collection, and — for observing the no-fetch-when-skipped
property — the requests handed to the transport. -/
structure EngineState where
  queue : List CrawlTask
  inflight : List (CrawlTask × FetchOutcome)
  cache : List String
  results : List LinkResult
  issued : List (String × Method)
  deriving DecidableEq, Repr

/-- The child tasks built by the recursion loop (engine file lines 188-214):
nonempty only when the task was allowed to crawl and the fetch section set
`shouldRecurse`; each extracted candidate is queued with `parent` set to the
page's URL and its own recursion decision. -/
def childrenOf (cfg : Cfg) (t : CrawlTask) (o : FetchOutcome) : List CrawlTask :=
  if t.crawl && o.shouldRecurse then
    (cfg.extract o.data t.url).map
      (fun u => ⟨u, some t.url, recurseDecision cfg.p1 cfg.recurse cfg.path u⟩)
  else []

/-- The synchronous opening of one `crawl` invocation (engine file lines
120-177), executed atomically because the code contains no `await` before
the first HTTP request: pick queued task `i`; if its URL is already cached,
drop it (lines 122-124); otherwise cache it (line 125), and either emit a
`SKIPPED` result when some skip pattern matches (lines 127-143) or issue
the fetch and become in-flight. -/
def stepStart (cfg : Cfg) (st : EngineState) (i : Nat) : EngineState :=
  match st.queue[i]? with
  | none => st
  | some t =>
    let q := st.queue.eraseIdx i
    if t.url ∈ st.cache then { st with queue := q }
    else
      let cache' := t.url :: st.cache
      if cfg.patterns.any (fun p => cfg.rtest p t.url) then
        { st with
          queue := q
          cache := cache'
          results := st.results ++ [⟨t.url, none, LinkState.SKIPPED, t.parent⟩] }
      else
        let o := fetchPhase t.crawl (cfg.tr t.url)
        { st with
          queue := q
          cache := cache'
          inflight := st.inflight ++ [(t, o)]
          issued := st.issued ++ o.reqs.map (fun m => (t.url, m)) }

/-- The completion of one `crawl` invocation after its fetch resolves
(engine file lines 178-215): exactly one `LinkResult` carrying the final
`status` and `state` is appended, and the recursion loop queues the child
tasks. -/
def stepFinish (cfg : Cfg) (st : EngineState) (i : Nat) : EngineState :=
  match st.inflight[i]? with
  | none => st
  | some (t, o) =>
    { st with
      inflight := st.inflight.eraseIdx i
      results := st.results ++ [⟨t.url, some o.status, o.state, t.parent⟩]
      queue := st.queue ++ childrenOf cfg t o }

/-- One scheduling decision: start some queued task or finish some
in-flight one. -/
inductive Choice where
  | start (i : Nat)
  | finish (i : Nat)

/-- Apply one scheduling decision. -/
def stepChoice (cfg : Cfg) (st : EngineState) : Choice → EngineState
  | Choice.start i => stepStart cfg st i
  | Choice.finish i => stepFinish cfg st i

/-- Run the engine under an arbitrary schedule. -/
def runEngine (cfg : Cfg) (st : EngineState) (sched : List Choice) : EngineState :=
  sched.foldl (stepChoice cfg) st

/-- The state seeded by `check` (engine file lines 74-84): one root task
with `crawl: true` and no parent, an empty cache and no results. -/
def initState (root : String) : EngineState :=
  ⟨[⟨root, none, true⟩], [], [], [], []⟩

/-- The URLs that have produced, or are still to produce, a `LinkResult`. -/
def liveUrls (st : EngineState) : List String :=
  st.results.map (fun r => r.url) ++ st.inflight.map (fun e => e.1.url)

/-- Dedup invariant: no URL is counted twice among emitted and pending
results, and every such URL has been recorded in the visited cache. -/
def EngineInv (st : EngineState) : Prop :=
  (liveUrls st).Nodup ∧ ∀ u ∈ liveUrls st, u ∈ st.cache

/-- Status-field invariant: an emitted result has no `status` exactly when
it is `SKIPPED`, and a pending fetch outcome is never `SKIPPED`. -/
def StatusInv (st : EngineState) : Prop :=
  (∀ r ∈ st.results, (r.state = LinkState.SKIPPED ↔ r.status = none))
  ∧ ∀ e ∈ st.inflight, e.2.state = LinkState.OK ∨ e.2.state = LinkState.BROKEN

/-- Models Node's `new URL(s)` on the inputs exercised here:
`new URL('http://a')` parses (host `a`, href `http://a/`), while
`new URL('http://a b')` throws a `TypeError` — a space is a forbidden host
code point. -/
def demoParse : String → Option Url := fun s =>
  if s = "http://a" then some ⟨"http://a/", "a"⟩ else none

/-- Models Node's `new URL(link, base)` on the inputs exercised here:
`page2.html` resolves against `http://a/`, while
`new URL('http://bad host/x', 'http://a/')` throws — the absolute token has
a space in its host. -/
def demoResolve : String → String → Option Url := fun link base =>
  if base = "http://a/" && link = "page2.html" then some ⟨"http://a/page2.html", "a"⟩
  else none

/-- Raw tokens extracted from a page at `http://a/`: one resolvable link and
one whose resolution throws. -/
def demoTokens : List String := ["page2.html", "http://bad host/x"]

/-- A `405 Method Not Allowed` response. -/
def resp405 : Resp := ⟨405, none, ""⟩

/-- A plain `200` response. -/
def resp200 : Resp := ⟨200, none, ""⟩

/-- An HTML `200` response. -/
def respHtml : Resp := ⟨200, some "text/html", "page"⟩

/-- A transport that answers `405` to everything. -/
def tr405 : Nat → Option Resp := fun _ => some resp405

/-- A transport that answers `405` first and `200` to the retry. -/
def tr405then200 : Nat → Option Resp := fun n => if n = 0 then some resp405 else some resp200

/-- A transport whose every request throws. -/
def trFail : Nat → Option Resp := fun _ => none

/-- A transport answering HTML `200` to everything. -/
def trHtml : Nat → Option Resp := fun _ => some respHtml

/-- A per-URL transport whose every request throws. -/
def trNoneS : String → Nat → Option Resp := fun _ _ => none

/-- A link extractor finding nothing. -/
def exNone : String → String → List String := fun _ _ => []

/-- A link extractor finding one candidate. -/
def exOne : String → String → List String := fun _ _ => ["http://r/a"]

/-- A URL parser that always throws. -/
def p1None : String → Option Url := fun _ => none

/-- A regular-expression test that never matches. -/
def rtFalse : String → String → Bool := fun _ _ => false

/-- A regular-expression test implementing the one pattern `^mailto:` (an
anchored literal matches exactly the strings that start with `mailto:`). -/
def rtM : String → String → Bool := fun p u => p = "^mailto:" && startsWithStr u "mailto:"

/-- User options carrying one custom skip pattern. -/
def oUser : CheckOptions := ⟨none, none, "http://r", none, some ["^foo"]⟩

/-- Options pointing at a local path, with no skip list. -/
def oLocal : CheckOptions := ⟨none, none, "docs", some true, none⟩

/-- Options pointing at an `http` URL with every field populated. -/
def oHttp : CheckOptions := ⟨some 7, some 1234, "http://r", some false, some ["^foo"]⟩

/-- A run configuration whose patterns are the processed `oUser` skip list. -/
def cfgM : Cfg :=
  ⟨(checkSetupOptions oUser 0).linksToSkip.getD [], rtM, trNoneS, exNone, p1None, false, "http://r"⟩

/-- A run configuration with only the `^mailto:` pattern. -/
def cfgSkip : Cfg := ⟨["^mailto:"], rtM, trNoneS, exNone, p1None, false, "http://r"⟩

/-- A run configuration that recurses and finds one candidate per page. -/
def cfgH : Cfg := ⟨[], rtFalse, trNoneS, exOne, p1None, true, "http://r"⟩

/-- A task whose URL matches `^mailto:`. -/
def taskM : CrawlTask := ⟨"mailto:z", some "http://r", false⟩

/-- A state holding just the `mailto:` task. -/
def stM : EngineState := ⟨[taskM], [], [], [], []⟩

/-- A task whose URL was already visited. -/
def dupTask : CrawlTask := ⟨"http://r/x", some "http://r", false⟩

/-- A state in which `dupTask`'s URL is already cached. -/
def stDup : EngineState := ⟨[dupTask], [], ["http://r/x"], [], []⟩

/-- A crawl-eligible task for the root page. -/
def tH : CrawlTask := ⟨"http://r/", none, true⟩

/-- The `SKIPPED` result the engine emits for a seeded `mailto:` root. -/
def resSkipM : LinkResult := ⟨"mailto:z", none, LinkState.SKIPPED, none⟩

/-- Claim C8, counterexample: on `background:url(http://x/i.png)` the code
yields nothing, because splitting on every colon truncates the declaration
value at the second colon, while the claimed split on the first colon only
would yield the inner URL `http://x/i.png`. -/
theorem parseAttr_style_cex :
    parseAttr "style" "background:url(http://x/i.png)" = some [""]
  ∧ specStyleTokens "background:url(http://x/i.png)" = ["http://x/i.png"]
  ∧ parseAttr "style" "background:url(http://x/i.png)"
      ≠ some (specStyleTokens "background:url(http://x/i.png)") := by
  refine ⟨by decide, by decide, by decide⟩

/-- Claim C8, amended: a `style` value is split on `;` and each declaration
on `:`, but the declaration value examined is the segment strictly between
the first and second colons; only `background`/`background-image`
declarations whose between-colons segment matches the `url(...)` pattern
(optionally quoted) yield the inner URL, every other declaration yields
nothing, and a `background` declaration with no colon at all throws. -/
theorem parseAttr_style_between_colons (v : String) :
    parseAttr "style" v = specStyleTokensSnd v := by
  have hpt : styleDeclLinks = specStyleDeclSndSegment := by
    funext r
    by_cases hr : r = ""
    · subst hr; decide
    · unfold styleDeclLinks specStyleDeclSndSegment
      rw [if_neg hr]
      cases hs : splitOnChar r ':' with
      | nil => simp [hs]; decide
      | cons a tl =>
        cases tl with
        | nil => simp [hs]
        | cons v2 tl2 => simp [hs]
  unfold parseAttr specStyleTokensSnd
  rw [if_pos rfl, hpt]

/-- Claim C1, code evaluation at the failing input: for a page at
`http://a/` whose raw tokens are `page2.html` and `http://bad host/x` (the
latter failing URL resolution), the candidate list handed to the recursion
loop still contains the parse-failed candidate with `error` set, and the
loop queues a crawl task for every candidate — the failed link is not
dropped before queuing. -/
theorem parse_failed_link_enqueued :
    (crawlQueueCandidates (getLinks demoResolve demoTokens "http://a/") "http://a/"
      (fun _ => false)).length = 2
  ∧ ∃ q ∈ crawlQueueCandidates (getLinks demoResolve demoTokens "http://a/") "http://a/"
      (fun _ => false), q.cand.error = true ∧ q.cand.link = "http://bad host/x" := by
  refine ⟨by decide, by decide⟩

/-- Claim C2, counterexample: with recursion enabled and crawl root
`http://a`, the candidate `http://a b` passes the prefix check but fails
URL parsing, and the recursion decision is nevertheless `true` — a
parse-failing candidate can be recursable, refuting the claim. -/
theorem recurse_decision_parse_failure_cex :
    recurseDecision demoParse true "http://a" "http://a b" = true
  ∧ demoParse "http://a b" = none := by
  refine ⟨by decide, by decide⟩

/-- Claim C4, counterexample: for options with a local `path` and no skip
list, `check` rewrites `path` to a localhost URL and replaces
`linksToSkip`, so the options record is not read-only for the crawl. -/
theorem checkOptions_mutation_cex :
    (checkSetupOptions oLocal 5123).path ≠ oLocal.path
  ∧ (checkSetupOptions oLocal 5123).linksToSkip ≠ oLocal.linksToSkip := by
  refine ⟨by decide, by decide⟩

/-- Claim C5, counterexample: a crawl task sends GET first, and a `405`
response still triggers the one-shot retry — two requests are issued and
neither is a HEAD — refuting that the fallback happens only for a HEAD. -/
theorem get405_retry_cex :
    (fetchPhase true tr405).reqs.length = 2 ∧ Method.HEAD ∉ (fetchPhase true tr405).reqs := by
  refine ⟨by decide, by decide⟩

-- helper: processed linksToSkip
theorem checkSetup_linksToSkip (o : CheckOptions) (rp : Nat) :
    (checkSetupOptions o rp).linksToSkip = some (o.linksToSkip.getD [] ++ builtinSkips) := by
  by_cases hp : startsWithStr o.path "http" = true
  · simp [checkSetupOptions, hp]
  · simp [checkSetupOptions, hp]

/-- Claim C4, amended: `concurrency`, `port` and `recurse` are unchanged by
`check`; `path` is unchanged whenever it already starts with `http`; and
`linksToSkip` keeps every user-supplied pattern while gaining the three
built-in patterns. -/
theorem checkOptions_frame (o : CheckOptions) (rp : Nat) :
    (checkSetupOptions o rp).concurrency = o.concurrency
  ∧ (checkSetupOptions o rp).port = o.port
  ∧ (checkSetupOptions o rp).recurse = o.recurse
  ∧ (startsWithStr o.path "http" = true → (checkSetupOptions o rp).path = o.path)
  ∧ (∀ p ∈ o.linksToSkip.getD [], p ∈ (checkSetupOptions o rp).linksToSkip.getD [])
  ∧ (∀ p ∈ builtinSkips, p ∈ (checkSetupOptions o rp).linksToSkip.getD []) := by
  refine ⟨?_, ?_, ?_, ?_, ?_, ?_⟩
  · by_cases hp : startsWithStr o.path "http" = true <;> simp [checkSetupOptions, hp]
  · by_cases hp : startsWithStr o.path "http" = true <;> simp [checkSetupOptions, hp]
  · by_cases hp : startsWithStr o.path "http" = true <;> simp [checkSetupOptions, hp]
  · intro hp
    simp [checkSetupOptions, hp]
  · intro p hp
    rw [checkSetup_linksToSkip]
    exact List.mem_append.mpr (Or.inl hp)
  · intro p hp
    rw [checkSetup_linksToSkip]
    exact List.mem_append.mpr (Or.inr hp)

/-- Claim C2, amended: the recursion decision is true only if recursion is
enabled and the candidate string starts with the crawl root string; when
both candidate and root parse successfully, equality of their hosts is
additionally required; when either fails to parse, the host check is
skipped and the decision equals the prefix check alone. -/
theorem recurse_decision_spec (p1 : String → Option Url) (rec : Bool) (path url : String) :
    (recurseDecision p1 rec path url = true → rec = true ∧ startsWithStr url path = true)
  ∧ (∀ pu pp, p1 url = some pu → p1 path = some pp →
      recurseDecision p1 rec path url = (rec && startsWithStr url path && (pu.host == pp.host)))
  ∧ ((p1 url = none ∨ p1 path = none) →
      recurseDecision p1 rec path url = (rec && startsWithStr url path)) := by
  by_cases hc : (rec && startsWithStr url path) = true
  · refine ⟨fun _ => by simpa using hc, ?_, ?_⟩
    · intro pu pp hu hp
      unfold recurseDecision
      rw [hu, hp]
      simp [hc]
    · rintro (h | h)
      · unfold recurseDecision
        rw [h]
        simp [hc]
      · unfold recurseDecision
        rw [h]
        cases hu : p1 url <;> simp [hc]
  · have hcf : (rec && startsWithStr url path) = false := by
      cases h : (rec && startsWithStr url path)
      · rfl
      · exact absurd h hc
    have hred : recurseDecision p1 rec path url = false := by
      unfold recurseDecision
      simp [hcf]
    refine ⟨fun h => absurd (hred ▸ h) (by decide), ?_, ?_⟩
    · intro pu pp hu hp
      rw [hred, hcf]
      simp
    · intro _
      rw [hred, hcf]

-- helper: classify is OK exactly on 2xx and otherwise BROKEN
theorem classify_cases (s : Nat) :
    ((classify s = LinkState.OK ↔ 200 ≤ s ∧ s < 300)
  ∧ (classify s = LinkState.OK ∨ classify s = LinkState.BROKEN)) := by
  unfold classify
  by_cases h : 200 ≤ s ∧ s < 300
  · simp [h]
  · simp [h]

/-- Claim C6: the emitted state is `OK` exactly when the final status lies
in `[200,300)`; it is otherwise `BROKEN`; and a transport failure yields
the status-0 sentinel with state `BROKEN` (the fetch phase is a total
function, so a failure never aborts the worker or the run). -/
theorem status_state_mapping (c : Bool) (tr : Nat → Option Resp) :
    ((fetchPhase c tr).state = LinkState.OK
      ↔ (200 ≤ (fetchPhase c tr).status ∧ (fetchPhase c tr).status < 300))
  ∧ ((fetchPhase c tr).state = LinkState.OK ∨ (fetchPhase c tr).state = LinkState.BROKEN)
  ∧ (tr 0 = none → (fetchPhase c tr).status = 0 ∧ (fetchPhase c tr).state = LinkState.BROKEN) := by
  unfold fetchPhase
  cases h0 : tr 0 with
  | none => simp
  | some r1 =>
    by_cases h405 : r1.status = 405
    · simp only [h405, if_pos rfl]
      cases h1 : tr 1 with
      | none => simp
      | some r2 => simpa using ⟨(classify_cases r2.status).1, (classify_cases r2.status).2⟩
    · simp only [if_neg h405]
      simpa using ⟨(classify_cases r1.status).1, (classify_cases r1.status).2⟩

-- helper: shouldRecurse is the html test on the effective response
theorem fetchPhase_shouldRecurse (c : Bool) (tr : Nat → Option Resp) :
    (fetchPhase c tr).shouldRecurse
      = (match effectiveResp tr with
        | some r => isHtml r
        | none => false) := by
  unfold fetchPhase effectiveResp
  cases h0 : tr 0 with
  | none => rfl
  | some r1 =>
    by_cases h405 : r1.status = 405
    · simp only [h405, if_pos rfl]
      cases h1 : tr 1 <;> rfl
    · simp only [if_neg h405]

/-- Claim C3: the child-task list is nonempty only when the task was
eligible to recurse, the fetch succeeded, and the effective response's
content type matches `text/html` or `application/xhtml+xml`; and when all
three conditions hold, extraction runs over the response body and every
candidate is queued with this page as parent. -/
theorem recurse_gate (cfg : Cfg) (t : CrawlTask) (tr : Nat → Option Resp) :
    (childrenOf cfg t (fetchPhase t.crawl tr) ≠ [] →
      t.crawl = true ∧ ∃ r, effectiveResp tr = some r ∧ isHtml r = true)
  ∧ (t.crawl = true → ∀ r, effectiveResp tr = some r → isHtml r = true →
      childrenOf cfg t (fetchPhase t.crawl tr)
        = (cfg.extract (fetchPhase t.crawl tr).data t.url).map
            (fun u => ⟨u, some t.url, recurseDecision cfg.p1 cfg.recurse cfg.path u⟩)) := by
  constructor
  · intro hne
    by_cases hcr : t.crawl = true
    · refine ⟨hcr, ?_⟩
      have hsr : (fetchPhase t.crawl tr).shouldRecurse = true := by
        by_contra hsrf
        have : (fetchPhase t.crawl tr).shouldRecurse = false := by
          cases h : (fetchPhase t.crawl tr).shouldRecurse
          · rfl
          · exact absurd h hsrf
        apply hne
        unfold childrenOf
        simp [this]
      rw [fetchPhase_shouldRecurse] at hsr
      cases he : effectiveResp tr with
      | none => rw [he] at hsr; exact absurd hsr (by decide)
      | some r => rw [he] at hsr; exact ⟨r, rfl, hsr⟩
    · exfalso
      apply hne
      have : t.crawl = false := by
        cases h : t.crawl
        · rfl
        · exact absurd h hcr
      unfold childrenOf
      simp [this]
  · intro hcr r he hh
    have hsr : (fetchPhase true tr).shouldRecurse = true := by
      rw [fetchPhase_shouldRecurse, he]
      exact hh
    have hcond : (t.crawl && (fetchPhase t.crawl tr).shouldRecurse) = true := by
      rw [hcr, Bool.true_and]
      exact hsr
    unfold childrenOf
    rw [if_pos hcond]

/-- Claim C5, amended: at most two requests are ever issued per task; a
second request happens exactly when the first response is a `405`; the
retry always uses GET and the task's status and state come from the
fallback response; and a completing task appends exactly one `LinkResult`. -/
theorem retry405_once (c : Bool) (tr : Nat → Option Resp) :
    (fetchPhase c tr).reqs.length ≤ 2
  ∧ ((fetchPhase c tr).reqs.length = 2 ↔ ∃ r1, tr 0 = some r1 ∧ r1.status = 405)
  ∧ (∀ r1 r2, tr 0 = some r1 → r1.status = 405 → tr 1 = some r2 →
      (fetchPhase c tr).reqs = [firstMethod c, Method.GET]
      ∧ (fetchPhase c tr).status = r2.status
      ∧ (fetchPhase c tr).state = classify r2.status)
  ∧ (∀ (cfg : Cfg) (st : EngineState) (j : Nat) (x : CrawlTask × FetchOutcome),
      st.inflight[j]? = some x →
      (stepFinish cfg st j).results.length = st.results.length + 1) := by
  refine ⟨?_, ?_, ?_, ?_⟩
  · unfold fetchPhase
    cases h0 : tr 0 with
    | none => simp
    | some r1 =>
      by_cases h405 : r1.status = 405
      · simp only [h405, if_pos rfl]
        cases h1 : tr 1 <;> simp
      · simp [if_neg h405]
  · unfold fetchPhase
    cases h0 : tr 0 with
    | none => simp
    | some r1 =>
      by_cases h405 : r1.status = 405
      · simp only [h405, if_pos rfl]
        cases h1 : tr 1 with
        | none => exact ⟨fun _ => ⟨r1, rfl, h405⟩, fun _ => rfl⟩
        | some r2 => exact ⟨fun _ => ⟨r1, rfl, h405⟩, fun _ => rfl⟩
      · simp only [if_neg h405]
        constructor
        · intro h
          simp at h
        · rintro ⟨r1x, hr1x, h405x⟩
          injection hr1x with hx
          subst hx
          exact absurd h405x h405
  · intro r1 r2 h0 h405 h1
    unfold fetchPhase
    rw [h0]
    dsimp only
    rw [if_pos h405, h1]
    exact ⟨rfl, rfl, rfl⟩
  · intro cfg st j x hj
    unfold stepFinish
    rw [hj]
    obtain ⟨t, o⟩ := x
    simp

-- helper: an element selected by index splits off as a permutation
theorem perm_cons_eraseIdx {α : Type} (l : List α) (i : Nat) (x : α)
    (h : l[i]? = some x) : l.Perm (x :: l.eraseIdx i) := by
  induction l generalizing i with
  | nil => simp at h
  | cons a t ih =>
    cases i with
    | zero =>
      rw [List.getElem?_cons_zero] at h
      injection h with hx
      subst hx
      rw [List.eraseIdx_cons_zero]
    | succ j =>
      rw [List.getElem?_cons_succ] at h
      rw [List.eraseIdx_cons_succ]
      exact ((ih j h).cons a).trans (List.Perm.swap x a _)

-- helper: inserting a fresh url keeps the dedup invariant
theorem nodup_closure_insert (A cache : List String) (u : String)
    (hnd : A.Nodup) (hcl : ∀ v ∈ A, v ∈ cache) (hu : u ∉ cache) :
    (u :: A).Nodup ∧ ∀ v ∈ u :: A, v ∈ u :: cache := by
  constructor
  · exact List.nodup_cons.mpr ⟨fun hm => hu (hcl u hm), hnd⟩
  · intro v hv
    rcases List.mem_cons.mp hv with h | h
    · exact h ▸ List.mem_cons_self u cache
    · exact List.mem_cons_of_mem u (hcl v h)

-- helper: appending a fresh result url keeps the dedup invariant
theorem nodup_closure_append_result (A B cache : List String) (u : String)
    (hnd : (A ++ B).Nodup) (hcl : ∀ v ∈ A ++ B, v ∈ cache) (hu : u ∉ cache) :
    ((A ++ [u]) ++ B).Nodup ∧ ∀ v ∈ (A ++ [u]) ++ B, v ∈ u :: cache := by
  have hperm : ((A ++ [u]) ++ B).Perm (u :: (A ++ B)) := by
    rw [List.append_assoc]
    exact List.perm_middle
  have hbase := nodup_closure_insert (A ++ B) cache u hnd hcl hu
  exact ⟨hperm.nodup_iff.mpr hbase.1, fun v hv => hbase.2 v (hperm.mem_iff.mp hv)⟩

-- helper: appending a fresh in-flight url keeps the dedup invariant
theorem nodup_closure_append_inflight (A B cache : List String) (u : String)
    (hnd : (A ++ B).Nodup) (hcl : ∀ v ∈ A ++ B, v ∈ cache) (hu : u ∉ cache) :
    (A ++ (B ++ [u])).Nodup ∧ ∀ v ∈ A ++ (B ++ [u]), v ∈ u :: cache := by
  have hperm : (A ++ (B ++ [u])).Perm (u :: (A ++ B)) :=
    ((List.perm_append_singleton u B).append_left A).trans List.perm_middle
  have hbase := nodup_closure_insert (A ++ B) cache u hnd hcl hu
  exact ⟨hperm.nodup_iff.mpr hbase.1, fun v hv => hbase.2 v (hperm.mem_iff.mp hv)⟩

-- the dedup invariant survives a task start
theorem engineInv_stepStart (cfg : Cfg) (st : EngineState) (i : Nat)
    (h : EngineInv st) : EngineInv (stepStart cfg st i) := by
  obtain ⟨hnd, hcl⟩ := h
  have hnd2 : (st.results.map (fun r => r.url) ++ st.inflight.map (fun e => e.1.url)).Nodup := hnd
  have hcl2 : ∀ v ∈ st.results.map (fun r => r.url) ++ st.inflight.map (fun e => e.1.url),
      v ∈ st.cache := hcl
  unfold stepStart
  cases hq : st.queue[i]? with
  | none => exact ⟨hnd, hcl⟩
  | some t =>
    dsimp only
    by_cases hmem : t.url ∈ st.cache
    · rw [if_pos hmem]
      exact ⟨hnd, hcl⟩
    · rw [if_neg hmem]
      by_cases hsk : cfg.patterns.any (fun p => cfg.rtest p t.url) = true
      · rw [if_pos hsk]
        have hres := nodup_closure_append_result (st.results.map (fun r => r.url))
          (st.inflight.map (fun e => e.1.url)) st.cache t.url hnd2 hcl2 hmem
        constructor
        · simpa [EngineInv, liveUrls] using hres.1
        · intro v hv
          exact hres.2 v (by simpa [liveUrls] using hv)
      · rw [if_neg hsk]
        have hres := nodup_closure_append_inflight (st.results.map (fun r => r.url))
          (st.inflight.map (fun e => e.1.url)) st.cache t.url hnd2 hcl2 hmem
        constructor
        · simpa [EngineInv, liveUrls] using hres.1
        · intro v hv
          exact hres.2 v (by simpa [liveUrls] using hv)

-- the dedup invariant survives a task completion
theorem engineInv_stepFinish (cfg : Cfg) (st : EngineState) (i : Nat)
    (h : EngineInv st) : EngineInv (stepFinish cfg st i) := by
  obtain ⟨hnd, hcl⟩ := h
  have hnd2 : (st.results.map (fun r => r.url) ++ st.inflight.map (fun e => e.1.url)).Nodup := hnd
  have hcl2 : ∀ v ∈ st.results.map (fun r => r.url) ++ st.inflight.map (fun e => e.1.url),
      v ∈ st.cache := hcl
  unfold stepFinish
  cases hq : st.inflight[i]? with
  | none => exact ⟨hnd, hcl⟩
  | some x =>
    obtain ⟨t, o⟩ := x
    dsimp only
    have hBm : (st.inflight.map (fun e => e.1.url)).Perm
        (t.url :: (st.inflight.eraseIdx i).map (fun e => e.1.url)) := by
      simpa using (perm_cons_eraseIdx st.inflight i (t, o) hq).map (fun e => e.1.url)
    have hperm : ((st.results.map (fun r => r.url) ++ [t.url])
        ++ (st.inflight.eraseIdx i).map (fun e => e.1.url)).Perm
        (st.results.map (fun r => r.url) ++ st.inflight.map (fun e => e.1.url)) := by
      rw [List.append_assoc]
      exact hBm.symm.append_left (st.results.map (fun r => r.url))
    constructor
    · simpa [EngineInv, liveUrls] using hperm.nodup_iff.mpr hnd2
    · intro v hv
      exact hcl2 v (hperm.mem_iff.mp (by simpa [liveUrls] using hv))

-- the dedup invariant holds after any schedule
theorem engineInv_run (cfg : Cfg) (sched : List Choice) (st : EngineState)
    (h : EngineInv st) : EngineInv (runEngine cfg st sched) := by
  induction sched generalizing st with
  | nil => exact h
  | cons c cs ih =>
    cases c with
    | start i => exact ih _ (engineInv_stepStart cfg st i h)
    | finish i => exact ih _ (engineInv_stepFinish cfg st i h)

/-- Claim C7: under every schedule, each distinct URL string appears in the
result collection at most once, and a task whose URL is already in the
visited cache is discarded at the dedup gate, changing nothing but the
queue. The check-and-insert of the gate is one atomic step of the model,
exactly as JavaScript's run-to-completion semantics executes lines 122-125
(no await separates the membership check from the insert). -/
theorem dedup_results_unique (cfg : Cfg) (root : String) (sched : List Choice) :
    ((runEngine cfg (initState root) sched).results.map (fun r => r.url)).Nodup
  ∧ ∀ (st : EngineState) (i : Nat) (t : CrawlTask),
      st.queue[i]? = some t → t.url ∈ st.cache →
      stepStart cfg st i = { st with queue := st.queue.eraseIdx i } := by
  constructor
  · have hinit : EngineInv (initState root) := by
      constructor
      · simp [liveUrls, initState]
      · intro u hu
        simp [liveUrls, initState] at hu
    have hinv := engineInv_run cfg sched (initState root) hinit
    exact (List.sublist_append_left _ _).nodup hinv.1
  · intro st i t hq hmem
    unfold stepStart
    rw [hq]
    dsimp only
    rw [if_pos hmem]

-- helper: a fetch outcome state is OK or BROKEN, never SKIPPED
theorem fetchPhase_state_cases (c : Bool) (tr : Nat → Option Resp) :
    (fetchPhase c tr).state = LinkState.OK ∨ (fetchPhase c tr).state = LinkState.BROKEN := by
  unfold fetchPhase
  cases h0 : tr 0 with
  | none => exact Or.inr rfl
  | some r1 =>
    dsimp only
    by_cases h405 : r1.status = 405
    · rw [if_pos h405]
      cases h1 : tr 1 with
      | none => exact Or.inr rfl
      | some r2 => exact (classify_cases r2.status).2
    · rw [if_neg h405]
      exact (classify_cases r1.status).2

-- the status-field invariant survives a task start
theorem statusInv_stepStart (cfg : Cfg) (st : EngineState) (i : Nat)
    (h : StatusInv st) : StatusInv (stepStart cfg st i) := by
  obtain ⟨hr, hf⟩ := h
  unfold stepStart
  cases hq : st.queue[i]? with
  | none => exact ⟨hr, hf⟩
  | some t =>
    dsimp only
    by_cases hmem : t.url ∈ st.cache
    · rw [if_pos hmem]
      exact ⟨hr, hf⟩
    · rw [if_neg hmem]
      by_cases hsk : cfg.patterns.any (fun p => cfg.rtest p t.url) = true
      · rw [if_pos hsk]
        constructor
        · intro r hrm
          have hrm2 : r ∈ st.results
              ∨ r = ⟨t.url, none, LinkState.SKIPPED, t.parent⟩ := by simpa using hrm
          rcases hrm2 with h1 | h1
          · exact hr r h1
          · subst h1
            simp
        · intro e he
          exact hf e (by simpa using he)
      · rw [if_neg hsk]
        constructor
        · intro r hrm
          exact hr r (by simpa using hrm)
        · intro e he
          have he2 : e ∈ st.inflight ∨ e = (t, fetchPhase t.crawl (cfg.tr t.url)) := by
            simpa using he
          rcases he2 with h1 | h1
          · exact hf e h1
          · subst h1
            exact fetchPhase_state_cases t.crawl (cfg.tr t.url)

-- the status-field invariant survives a task completion
theorem statusInv_stepFinish (cfg : Cfg) (st : EngineState) (i : Nat)
    (h : StatusInv st) : StatusInv (stepFinish cfg st i) := by
  obtain ⟨hr, hf⟩ := h
  unfold stepFinish
  cases hq : st.inflight[i]? with
  | none => exact ⟨hr, hf⟩
  | some x =>
    obtain ⟨t, o⟩ := x
    dsimp only
    constructor
    · intro r hrm
      have hrm2 : r ∈ st.results
          ∨ r = ⟨t.url, some o.status, o.state, t.parent⟩ := by simpa using hrm
      rcases hrm2 with h1 | h1
      · exact hr r h1
      · subst h1
        have hoc := hf (t, o) (List.getElem?_mem hq)
        constructor
        · intro hstate
          have hstate2 : o.state = LinkState.SKIPPED := hstate
          exfalso
          rcases hoc with h2 | h2 <;> rw [hstate2] at h2 <;> exact absurd h2 (by decide)
        · intro habs
          exact absurd habs (by simp)
    · intro e he
      exact hf e ((List.eraseIdx_sublist st.inflight i).mem (by simpa using he))

-- the status-field invariant holds after any schedule
theorem statusInv_run (cfg : Cfg) (sched : List Choice) (st : EngineState)
    (h : StatusInv st) : StatusInv (runEngine cfg st sched) := by
  induction sched generalizing st with
  | nil => exact h
  | cons c cs ih =>
    cases c with
    | start i => exact ih _ (statusInv_stepStart cfg st i h)
    | finish i => exact ih _ (statusInv_stepFinish cfg st i h)

/-- Claim C10: in every reachable result collection, a result omits the
`status` field exactly when its state is `SKIPPED`; every result produced
by a fetch attempt carries a numeric status. -/
theorem skipped_iff_status_none (cfg : Cfg) (root : String) (sched : List Choice)
    (r : LinkResult) (hr : r ∈ (runEngine cfg (initState root) sched).results) :
    r.state = LinkState.SKIPPED ↔ r.status = none := by
  have hinit : StatusInv (initState root) := by
    constructor
    · intro r hrm
      simp [initState] at hrm
    · intro e he
      simp [initState] at he
  exact (statusInv_run cfg sched (initState root) hinit).1 r hr

/-- Claim C9: when a task's URL matches any user-supplied or built-in skip
pattern (the built-ins being always active because `check` appends them),
the engine appends exactly one `SKIPPED` result carrying the task's parent
and initiates no request for that URL. -/
theorem skip_gate_skipped_no_fetch
    (o : CheckOptions) (rp : Nat) (rt : String → String → Bool)
    (htr : String → Nat → Option Resp) (ex : String → String → List String)
    (pp : String → Option Url) (rec : Bool) (pa : String) (cfg : Cfg)
    (hcfg : cfg = ⟨(checkSetupOptions o rp).linksToSkip.getD [], rt, htr, ex, pp, rec, pa⟩)
    (st : EngineState) (i : Nat) (t : CrawlTask)
    (hq : st.queue[i]? = some t) (hc : t.url ∉ st.cache)
    (hm : ∃ p, (p ∈ o.linksToSkip.getD [] ∨ p ∈ builtinSkips) ∧ rt p t.url = true) :
    (stepStart cfg st i).results
        = st.results ++ [⟨t.url, none, LinkState.SKIPPED, t.parent⟩]
    ∧ (stepStart cfg st i).issued = st.issued
    ∧ (stepStart cfg st i).inflight = st.inflight := by
  subst hcfg
  have hany : (((checkSetupOptions o rp).linksToSkip.getD []).any (fun p => rt p t.url)) = true := by
    rw [checkSetup_linksToSkip]
    rcases hm with ⟨p, hp, hpt⟩
    exact List.any_eq_true.mpr ⟨p, List.mem_append.mpr hp, hpt⟩
  unfold stepStart
  rw [hq]
  dsimp only
  rw [if_neg hc, if_pos hany]
  exact ⟨rfl, rfl, rfl⟩

/-- Witness for the amended C2 theorem at concrete inputs. -/
theorem recurse_decision_spec_witness :
    (true = true ∧ startsWithStr "http://a/x" "http://a" = true)
  ∧ recurseDecision demoParse true "http://a" "http://a"
      = (true && startsWithStr "http://a" "http://a" && ("a" == "a"))
  ∧ recurseDecision demoParse true "http://a" "zzz"
      = (true && startsWithStr "zzz" "http://a") :=
  ⟨(recurse_decision_spec demoParse true "http://a" "http://a/x").1 (by decide),
   (recurse_decision_spec demoParse true "http://a" "http://a").2.1
     ⟨"http://a/", "a"⟩ ⟨"http://a/", "a"⟩ (by decide) (by decide),
   (recurse_decision_spec demoParse true "http://a" "zzz").2.2 (Or.inl (by decide))⟩

/-- Witness for the C3 theorem: an HTML 200 response on a crawl task. -/
theorem recurse_gate_witness :
    childrenOf cfgH tH (fetchPhase tH.crawl trHtml)
      = (cfgH.extract (fetchPhase tH.crawl trHtml).data tH.url).map
          (fun u => ⟨u, some tH.url, recurseDecision cfgH.p1 cfgH.recurse cfgH.path u⟩) :=
  (recurse_gate cfgH tH trHtml).2 rfl respHtml rfl (by decide)

/-- Witness for the amended C4 theorem at concrete options. -/
theorem checkOptions_frame_witness :
    (checkSetupOptions oHttp 99).path = oHttp.path
  ∧ "^foo" ∈ (checkSetupOptions oHttp 99).linksToSkip.getD []
  ∧ "^mailto:" ∈ (checkSetupOptions oHttp 99).linksToSkip.getD [] :=
  ⟨(checkOptions_frame oHttp 99).2.2.2.1 (by decide),
   (checkOptions_frame oHttp 99).2.2.2.2.1 "^foo" (by decide),
   (checkOptions_frame oHttp 99).2.2.2.2.2 "^mailto:" (by decide)⟩

/-- Witness for the amended C5 theorem: HEAD answered 405, GET answered 200. -/
theorem retry405_once_witness :
    (fetchPhase false tr405then200).reqs = [firstMethod false, Method.GET]
  ∧ (fetchPhase false tr405then200).status = resp200.status
  ∧ (fetchPhase false tr405then200).state = classify resp200.status :=
  (retry405_once false tr405then200).2.2.1 resp405 resp200 rfl rfl rfl

/-- Witness for the C6 theorem at a failing transport. -/
theorem status_state_mapping_witness :
    (fetchPhase true trFail).status = 0 ∧ (fetchPhase true trFail).state = LinkState.BROKEN :=
  (status_state_mapping true trFail).2.2 rfl

/-- Witness for the C7 theorem at a concrete duplicate task. -/
theorem dedup_results_unique_witness :
    ((runEngine cfgM (initState "http://r") []).results.map (fun r => r.url)).Nodup
  ∧ stepStart cfgM stDup 0 = { stDup with queue := stDup.queue.eraseIdx 0 } :=
  ⟨(dedup_results_unique cfgM "http://r" []).1,
   (dedup_results_unique cfgM "http://r" []).2 stDup 0 dupTask rfl (by decide)⟩

/-- Witness for the C9 theorem at a concrete mailto task. -/
theorem skip_gate_skipped_no_fetch_witness :
    (stepStart cfgM stM 0).results
        = stM.results ++ [⟨taskM.url, none, LinkState.SKIPPED, taskM.parent⟩]
    ∧ (stepStart cfgM stM 0).issued = stM.issued
    ∧ (stepStart cfgM stM 0).inflight = stM.inflight :=
  skip_gate_skipped_no_fetch oUser 0 rtM trNoneS exNone p1None false "http://r" cfgM rfl
    stM 0 taskM rfl (by decide) ⟨"^mailto:", Or.inr (by decide), by decide⟩

/-- Witness for the C10 theorem on a one-step run emitting a skip. -/
theorem skipped_iff_status_none_witness :
    resSkipM.state = LinkState.SKIPPED ↔ resSkipM.status = none :=
  skipped_iff_status_none cfgSkip "mailto:z" [Choice.start 0] resSkipM (by decide)
